import Mathlib

/-!
# Verification of the GPT-2 training program (`train_gpt2.py`)

A shallow embedding of the model and training-loop code of `train_gpt2.py`
over exact arithmetic.  Tensors are functions out of `Fin`-indexed shapes
with rational entries; the transcendental primitives used by the code
(`exp`, `log`, `cos`, the tanh-approximated GELU, square roots) are passed
in as function parameters, so every definition stays computable and the
theorems quantify over the primitive functions wherever the property does
not depend on them.
-/

namespace TrainGPT2

/-- Transcendental primitives of the tensor runtime, abstracted as rational
functions: `exp` (softmax / cross-entropy), `log` (cross-entropy),
`gelu` (the tanh-approximated GELU applied elementwise in `MLP.forward`),
and `sqrt` (attention scaling and layer-norm denominators). -/
structure Prims where
  exp : ℚ → ℚ
  log : ℚ → ℚ
  gelu : ℚ → ℚ
  sqrt : ℚ → ℚ

/-- Parameters of `nn.Linear(din, dout)` (with bias): `weight : (dout, din)`,
`bias : (dout,)`. -/
structure LinearP (dout din : ℕ) where
  weight : Fin dout → Fin din → ℚ
  bias : Fin dout → ℚ

/-- `nn.Linear` forward: `y = x @ W.T + b`. -/
def linearF {dout din : ℕ} (p : LinearP dout din) (x : Fin din → ℚ) :
    Fin dout → ℚ :=
  fun o => (∑ i, p.weight o i * x i) + p.bias o

/-- Parameters of `CausalSelfAttention` over `C = n_embed` channels:
the fused QKV projection `c_attn : C → 3C` and the output projection
`c_proj : C → C` (lines 17–19). -/
structure AttnP (C : ℕ) where
  c_attn : LinearP (3 * C) C
  c_proj : LinearP C C

/-- Query slice of the fused QKV output: channels `[0, C)` (line 32's
`qkv.split(self.n_embed, dim=2)`). -/
def qProj {C : ℕ} (p : AttnP C) (xt : Fin C → ℚ) (c : Fin C) : ℚ :=
  linearF p.c_attn xt ⟨c.1, by have := c.isLt; omega⟩

/-- Key slice of the fused QKV output: channels `[C, 2C)`. -/
def kProj {C : ℕ} (p : AttnP C) (xt : Fin C → ℚ) (c : Fin C) : ℚ :=
  linearF p.c_attn xt ⟨C + c.1, by have := c.isLt; omega⟩

/-- Value slice of the fused QKV output: channels `[2C, 3C)`. -/
def vProj {C : ℕ} (p : AttnP C) (xt : Fin C → ℚ) (c : Fin C) : ℚ :=
  linearF p.c_attn xt ⟨2 * C + c.1, by have := c.isLt; omega⟩

/-- Attention score of query position `i` against key position `j` for
head `h`: the per-head dot product `q_i · k_j` over the head's channel
block `{c | c / head_size = h}` (the `view`/`transpose` reshape groups
channels into contiguous blocks of size `head_size = C / n_head`),
scaled by `1 / sqrt(head_size)`. -/
def attScore {T C : ℕ} (nh : ℕ) (pr : Prims) (p : AttnP C)
    (x : Fin T → Fin C → ℚ) (i j : Fin T) (h : ℕ) : ℚ :=
  (∑ c : Fin C, if c.1 / (C / nh) = h then qProj p (x i) c * kProj p (x j) c else 0)
    / pr.sqrt ((C / nh : ℕ) : ℚ)

/-- Unnormalized causal softmax weight: masked positions `j > i` get score
`-∞`, hence weight `exp(-∞) = 0`; unmasked positions get `exp(score)`
(the commented-out reference path of lines 37–39, which
`F.scaled_dot_product_attention(..., is_causal=True)` implements). -/
def attWeight {T C : ℕ} (nh : ℕ) (pr : Prims) (p : AttnP C)
    (x : Fin T → Fin C → ℚ) (i j : Fin T) (h : ℕ) : ℚ :=
  if j ≤ i then pr.exp (attScore nh pr p x i j h) else 0

/-- Softmax normalizer at query position `i`, head `h`. -/
def attDenom {T C : ℕ} (nh : ℕ) (pr : Prims) (p : AttnP C)
    (x : Fin T → Fin C → ℚ) (i : Fin T) (h : ℕ) : ℚ :=
  ∑ j, attWeight nh pr p x i j h

/-- `CausalSelfAttention.forward` (lines 28–46): QKV projection, per-head
causally-masked softmax attention, head merge, output projection. -/
def attnF {T C : ℕ} (nh : ℕ) (pr : Prims) (p : AttnP C)
    (x : Fin T → Fin C → ℚ) (i : Fin T) : Fin C → ℚ :=
  linearF p.c_proj (fun c =>
    ∑ j, (attWeight nh pr p x i j (c.1 / (C / nh)) / attDenom nh pr p x i (c.1 / (C / nh)))
      * vProj p (x j) c)

/-- Parameters of `MLP`: `c_fc : C → 4C`, `c_proj : 4C → C` (lines 53–55). -/
structure MLPP (C : ℕ) where
  c_fc : LinearP (4 * C) C
  c_proj : LinearP C (4 * C)

/-- `MLP.forward` (lines 58–62): linear, GELU (tanh approximation),
linear. -/
def mlpF {C : ℕ} (pr : Prims) (p : MLPP C) (x : Fin C → ℚ) : Fin C → ℚ :=
  linearF p.c_proj (fun i => pr.gelu (linearF p.c_fc x i))

/-- Parameters of `nn.LayerNorm(C)`: learned scale (`weight`) and shift
(`bias`). -/
structure LNP (C : ℕ) where
  weight : Fin C → ℚ
  bias : Fin C → ℚ

/-- `nn.LayerNorm`'s ε (PyTorch default `1e-5`). -/
def lnEps : ℚ := 1 / 100000

/-- `nn.LayerNorm` forward: per-position mean/variance normalization with
affine transform. -/
def layerNormF {C : ℕ} (pr : Prims) (p : LNP C) (x : Fin C → ℚ) :
    Fin C → ℚ :=
  let mean : ℚ := (∑ i, x i) / (C : ℚ)
  let var : ℚ := (∑ i, (x i - mean) ^ 2) / (C : ℚ)
  fun i => p.weight i * ((x i - mean) / pr.sqrt (var + lnEps)) + p.bias i

/-- Parameters of one transformer `Block` (lines 67–72). -/
structure BlockP (C : ℕ) where
  ln_1 : LNP C
  attn : AttnP C
  ln_2 : LNP C
  mlp : MLPP C

/-- `Block.forward` (lines 74–77): `x = x + attn(ln_1(x))`, then
`x = x + mlp(ln_2(x))`. -/
def blockF {T C : ℕ} (nh : ℕ) (pr : Prims) (p : BlockP C)
    (x : Fin T → Fin C → ℚ) : Fin T → Fin C → ℚ :=
  let x1 : Fin T → Fin C → ℚ :=
    fun t c => x t c + attnF nh pr p.attn (fun s => layerNormF pr p.ln_1 (x s)) t c
  fun t c => x1 t c + mlpF pr p.mlp (layerNormF pr p.ln_2 (x1 t)) c

/-- `GPTConfig` (lines 80–86). -/
structure GPTConfig where
  block_size : ℕ := 1024
  vocab_size : ℕ := 50257
  n_layer : ℕ := 12
  n_head : ℕ := 12
  n_embed : ℕ := 768

/-- Parameters of the `GPT` module (lines 95–101).  The output projection
`lm_head` has no weight of its own: after line 104
(`self.transformer.wte.weight = self.lm_head.weight`) the token-embedding
matrix and the `lm_head` weight are one storage, so the record carries a
single field `wte` used by both the embedding lookup and the final
projection. -/
structure GPTP (c : GPTConfig) where
  wte : Fin c.vocab_size → Fin c.n_embed → ℚ
  wpe : Fin c.block_size → Fin c.n_embed → ℚ
  h : Fin c.n_layer → BlockP c.n_embed
  ln_f : LNP c.n_embed

/-- The body of `GPT.forward` (lines 126–134) for one already-validated
sequence length `T ≤ block_size`: token plus position embeddings, the
`n_layer` blocks in order, final layer norm, and the (tied, bias-free)
`lm_head` projection to vocabulary logits. -/
def gptBody (c : GPTConfig) (pr : Prims) (p : GPTP c) (B T : ℕ)
    (hT : T ≤ c.block_size) (idx : Fin B → Fin T → Fin c.vocab_size) :
    Fin B → Fin T → Fin c.vocab_size → ℚ :=
  fun b =>
    let x0 : Fin T → Fin c.n_embed → ℚ :=
      fun t e => p.wte (idx b t) e + p.wpe ⟨t.1, lt_of_lt_of_le t.isLt hT⟩ e
    let xL := (List.finRange c.n_layer).foldl
      (fun x l => blockF c.n_head pr (p.h l) x) x0
    fun t v => ∑ e, p.wte v e * layerNormF pr p.ln_f (xL t) e

/-- Per-row cross entropy of `F.cross_entropy` for one position:
`-log softmax(logits)[target] = log (∑_v exp(logits v)) - logits target`. -/
def ceF (pr : Prims) {V : ℕ} (logits : Fin V → ℚ) (target : Fin V) : ℚ :=
  pr.log (∑ v, pr.exp (logits v)) - logits target

/-- Row of a flattened `(B, T)` index (`view(-1)` is row-major:
`n ↦ (n / T, n % T)`). -/
def rowOf (B T : ℕ) (n : Fin (B * T)) : Fin B :=
  ⟨n.1 / T, by
    rcases Nat.eq_zero_or_pos T with h | h
    · exact absurd n.isLt (by simp [h])
    · exact Nat.div_lt_of_lt_mul (Nat.mul_comm B T ▸ n.isLt)⟩

/-- Column of a flattened `(B, T)` index. -/
def colOf (B T : ℕ) (n : Fin (B * T)) : Fin T :=
  ⟨n.1 % T, by
    rcases Nat.eq_zero_or_pos T with h | h
    · exact absurd n.isLt (by simp [h])
    · exact Nat.mod_lt _ h⟩

/-- `GPT.forward` (lines 121–139): asserts `T ≤ block_size` (a fatal
error otherwise — the `assert` of line 124), computes logits of shape
`(B, T, vocab_size)`, and when targets are supplied also the
`F.cross_entropy` of the flattened `(B*T, vocab_size)` logits against the
flattened `(B*T,)` targets (mean reduction). -/
def gptForward (c : GPTConfig) (pr : Prims) (p : GPTP c) (B T : ℕ)
    (idx : Fin B → Fin T → Fin c.vocab_size)
    (targets : Option (Fin B → Fin T → Fin c.vocab_size)) :
    Except String ((Fin B → Fin T → Fin c.vocab_size → ℚ) × Option ℚ) :=
  if hT : T ≤ c.block_size then
    .ok (gptBody c pr p B T hT idx,
      targets.map (fun tg =>
        (∑ n : Fin (B * T),
          ceF pr (gptBody c pr p B T hT idx (rowOf B T n) (colOf B T n))
            (tg (rowOf B T n) (colOf B T n))) / ((B * T : ℕ) : ℚ)))
  else
    .error "Cannot foward sequence, longer than block size"

/-- The mean token-level cross-entropy as the specification words it:
the mean over all `B*T` positions of the per-position cross entropy of
the logits at position `t` against the target at position `t`. -/
def meanTokenCE (c : GPTConfig) (pr : Prims) {B T : ℕ}
    (logits : Fin B → Fin T → Fin c.vocab_size → ℚ)
    (tg : Fin B → Fin T → Fin c.vocab_size) : ℚ :=
  (∑ b, ∑ t, ceF pr (logits b t) (tg b t)) / ((B * T : ℕ) : ℚ)

/-! ## Learning-rate scheduler (lines 399–417) -/

/-- `max_lr = 6e-4` (line 399). -/
def max_lr : ℚ := 6 / 10000

/-- `min_lr = max_lr * 0.1` (line 400). -/
def min_lr : ℚ := max_lr * (1 / 10)

/-- `warmup_steps = 715` (line 403). -/
def warmup_steps : ℕ := 715

/-- `max_steps = 19073` (line 404). -/
def max_steps : ℕ := 19073

/-- `get_lr` (lines 406–417), generic over the scalar field so it can be
instantiated both at `ℚ` (for evaluation) and at `ℝ` with the genuine
`Real.pi` / `Real.cos` (for the boundary and monotonicity facts). -/
def get_lr (K : Type) [LinearOrderedField K] (pi : K) (cos : K → K)
    (it : ℕ) : K :=
  if it < warmup_steps then (max_lr : K) * ((it : K) + 1) / (warmup_steps : K)
  else if max_steps < it then (min_lr : K)
  else
    let decay_ratio : K := ((it : K) - (warmup_steps : K)) / ((max_steps : K) - (warmup_steps : K))
    let coeff : K := (1 / 2 : K) * (1 + cos (pi * decay_ratio))
    (min_lr : K) + coeff * ((max_lr : K) - (min_lr : K))

/-- The scheduler as the specification's formula words it: linear ramp
`max_lr*(step+1)/warmup_steps` below `warmup_steps`, constant `min_lr`
above `max_steps`, otherwise
`min_lr + 0.5*(1+cos(pi*(step-warmup_steps)/(max_steps-warmup_steps)))*(max_lr-min_lr)`. -/
def get_lr_specFormula (K : Type) [LinearOrderedField K] (pi : K)
    (cos : K → K) (it : ℕ) : K :=
  if it < warmup_steps then (max_lr : K) * ((it : K) + 1) / (warmup_steps : K)
  else if max_steps < it then (min_lr : K)
  else (min_lr : K) +
    (1 / 2 : K) * (1 + cos (pi * ((it : K) - (warmup_steps : K)) / ((max_steps : K) - (warmup_steps : K))))
      * ((max_lr : K) - (min_lr : K))

/-! ## Gradient clipping (call site line 572) -/

/-- Squared global L2 norm of a gradient vector. -/
def gradNormSq (n : ℕ) (g : Fin n → ℚ) : ℚ := ∑ i, g i ^ 2

/-- Modelled from the spec: the implementation of
`torch.nn.utils.clip_grad_norm_(model.parameters(), 1.0)` is external
library code (only its call site, line 572, is in the source), so the
clipping operation follows the specification's words — compute the global
L2 norm of all gradients; if it exceeds `1.0`, rescale all gradients
uniformly so the global norm equals `1.0` exactly, otherwise leave them
unchanged; return the pre-clip norm for logging.  The square root is a
function parameter constrained in the theorems. -/
def clipGradNorm (n : ℕ) (sqrt : ℚ → ℚ) (g : Fin n → ℚ) :
    (Fin n → ℚ) × ℚ :=
  if 1 < sqrt (gradNormSq n g) then
    (fun i => g i / sqrt (gradNormSq n g), sqrt (gradNormSq n g))
  else (g, sqrt (gradNormSq n g))

/-! ## Optimizer configuration (`GPT.configure_optimizers`, lines 188–211) -/

/-- What the configurator observes about one named parameter tensor:
its dimensionality and whether it requires gradients. -/
structure PDesc where
  ndim : ℕ
  requiresGrad : Bool
deriving DecidableEq, Repr

/-- One optimizer parameter group: the tensors and the group's weight
decay. -/
structure ParamGroup where
  params : List PDesc
  weight_decay : ℚ

/-- The optimizer value produced by `configure_optimizers`: the two
groups and the AdamW hyperparameters passed at line 210. -/
structure OptimConfig where
  groups : List ParamGroup
  lr : ℚ
  beta1 : ℚ
  beta2 : ℚ
  eps : ℚ

/-- `GPT.configure_optimizers` (lines 188–211): keep parameters requiring
grad, split by `p.dim() >= 2` into the weight-decayed group and by
`p.dim() < 2` into the zero-decay group, and build AdamW with
`betas=(0.9, 0.95)`, `eps=1e-8`. -/
def configure_optimizers (params : List PDesc) (weight_decay lr : ℚ) :
    OptimConfig :=
  let param_dict := params.filter (fun p => p.requiresGrad)
  let decay_params := param_dict.filter (fun p => 2 ≤ p.ndim)
  let nodecay_params := param_dict.filter (fun p => p.ndim < 2)
  { groups := [⟨decay_params, weight_decay⟩, ⟨nodecay_params, 0⟩]
    lr := lr
    beta1 := 9 / 10
    beta2 := 95 / 100
    eps := 1 / 100000000 }

/-! ## Initialization policy (`GPT._init_weights`, lines 109–119) -/

/-- What `_init_weights` observes about a module: its class
(`nn.Linear` — with bias presence and the `NANOGPT_SCALE_INIT` marker —
`nn.Embedding`, or `nn.LayerNorm`). -/
inductive ModuleKind
  | linear (scaleInit : Bool) (hasBias : Bool)
  | embedding
  | layerNorm
deriving DecidableEq, Repr

/-- The sites of parameter-bearing submodules the `GPT` constructor
registers (lines 95–101): `wte`, `wpe`, six submodules per block, `ln_f`,
and `lm_head`. -/
inductive Site
  | wte
  | wpe
  | ln_1 (l : ℕ)
  | attn_c_attn (l : ℕ)
  | attn_c_proj (l : ℕ)
  | ln_2 (l : ℕ)
  | mlp_c_fc (l : ℕ)
  | mlp_c_proj (l : ℕ)
  | ln_f
  | lm_head
deriving DecidableEq, Repr

/-- The module class at each site, as constructed: `wte`/`wpe` are
embeddings (lines 96–97); `c_attn` is a Linear with bias (line 17);
the attention `c_proj` is a Linear with bias carrying
`NANOGPT_SCALE_INIT` (lines 19–20); `c_fc` a Linear with bias (line 53);
the MLP `c_proj` a Linear with bias carrying `NANOGPT_SCALE_INIT`
(lines 55–56); `ln_1`/`ln_2`/`ln_f` are layer norms; `lm_head` a Linear
with `bias=False` (line 101). -/
def moduleKind : Site → ModuleKind
  | .wte => .embedding
  | .wpe => .embedding
  | .ln_1 _ => .layerNorm
  | .attn_c_attn _ => .linear false true
  | .attn_c_proj _ => .linear true true
  | .ln_2 _ => .layerNorm
  | .mlp_c_fc _ => .linear false true
  | .mlp_c_proj _ => .linear true true
  | .ln_f => .layerNorm
  | .lm_head => .linear false false

/-- The list of parameter-bearing module sites `self.apply` visits for a
model with `n_layer` layers. -/
def gptModules (c : GPTConfig) : List Site :=
  [Site.wte, Site.wpe]
    ++ (List.range c.n_layer).flatMap (fun l =>
        [Site.ln_1 l, Site.attn_c_attn l, Site.attn_c_proj l,
         Site.ln_2 l, Site.mlp_c_fc l, Site.mlp_c_proj l])
    ++ [Site.ln_f, Site.lm_head]

/-- The standard deviation `_init_weights` hands to
`torch.nn.init.normal_` for the weight at a site, or `none` when the
module's weight is not re-initialized (layer norms match neither
`isinstance` branch).  `rsqrt` is a function parameter modelling
`x ↦ x ** -0.5`; the Linear branch starts from `std = 0.02` and, when the
module carries `NANOGPT_SCALE_INIT`, multiplies by
`(2 * n_layer) ** -0.5` (lines 110–115); the Embedding branch uses
`std = 0.02` (lines 118–119).  All draws use `mean = 0.0`. -/
def initWeightStd (rsqrt : ℕ → ℚ) (n_layer : ℕ) (s : Site) : Option ℚ :=
  match moduleKind s with
  | .linear scaleInit _ =>
      some (if scaleInit then (2 / 100) * rsqrt (2 * n_layer) else 2 / 100)
  | .embedding => some (2 / 100)
  | .layerNorm => none

/-- The value `_init_weights` writes into a Linear's bias when the module
has one (`torch.nn.init.zeros_`, lines 116–117); `none` when the module
has no bias or is not a Linear. -/
def initBiasValue (s : Site) : Option ℚ :=
  match moduleKind s with
  | .linear _ true => some 0
  | _ => none

/-- The specification's delimitation of the exceptional sites: the final
output projections of the Attention block and the Feed-Forward block. -/
def isResidualProj : Site → Bool
  | .attn_c_proj _ => true
  | .mlp_c_proj _ => true
  | _ => false

/-! ## Weight tying as storage aliasing (`GPT.__init__`, lines 95–104) -/

/-- A parameter storage heap: storage ids to matrix contents. -/
def Heap : Type := ℕ → (ℕ → ℕ → ℚ)

/-- Overwrite one storage. -/
def writeHeap (h : Heap) (id : ℕ) (v : ℕ → ℕ → ℚ) : Heap :=
  fun i => if i = id then v else h i

/-- The storage ids the names of the `GPT` module tree point at.  Only
the tensors the tying claim concerns are tracked by name; `blockCount`
stands for the storages the blocks allocate in between. -/
structure GPTRefs where
  wteW : ℕ
  wpeW : ℕ
  lnfW : ℕ
  lmHeadW : ℕ

/-- Number of parameter storages each `Block` allocates: `ln_1` (weight,
bias), `c_attn` (weight, bias), attention `c_proj` (weight, bias),
`ln_2` (weight, bias), `c_fc` (weight, bias), MLP `c_proj` (weight,
bias). -/
def blockStorages : ℕ := 12

/-- `GPT.__init__` at the storage level: each registered module allocates
fresh storages in source order (`wte`, `wpe`, the `n_layer` blocks,
`ln_f`, `lm_head`), and then line 104
(`self.transformer.wte.weight = self.lm_head.weight`) rebinds the `wte`
weight name to the `lm_head` weight's storage. -/
def constructGPTRefs (c : GPTConfig) : GPTRefs :=
  let wte0 : ℕ := 0
  let wpe0 : ℕ := 1
  let lnf0 : ℕ := 2 + blockStorages * c.n_layer
  let lmh0 : ℕ := lnf0 + 2
  let refs0 : GPTRefs := { wteW := wte0, wpeW := wpe0, lnfW := lnf0, lmHeadW := lmh0 }
  -- line 104: self.transformer.wte.weight = self.lm_head.weight
  { refs0 with wteW := refs0.lmHeadW }

/-- A whole-model parameter operation (initialization pass, optimizer
step): it rewrites every storage as a function of its id and current
contents, and touches no name binding. -/
def applyOp (f : ℕ → (ℕ → ℕ → ℚ) → (ℕ → ℕ → ℚ)) (h : Heap) : Heap :=
  fun i => f i (h i)

/-! ## Gradient accumulation (training loop, lines 544–566) -/

/-- Mean loss of micro-batch `k` over its `N = B*T` positions, given the
per-position losses `ℓ` (the mean reduction of `F.cross_entropy`). -/
def microLoss (K N : ℕ) (l : Fin K → Fin N → ℚ) (k : Fin K) : ℚ :=
  (∑ j, l k j) / (N : ℚ)

/-- `loss_accum` after the micro-step loop (lines 545–565): starts at
`0.0`, and each micro-step adds `loss / grad_accum_steps`. -/
def lossAccumLoop (K N : ℕ) (l : Fin K → Fin N → ℚ) : ℚ :=
  (List.finRange K).foldl (fun acc k => acc + microLoss K N l k / (K : ℚ)) 0

/-- The mean loss of the single concatenated batch of all `K*N`
positions. -/
def concatMeanLoss (K N : ℕ) (l : Fin K → Fin N → ℚ) : ℚ :=
  (∑ k, ∑ j, l k j) / ((K : ℚ) * (N : ℚ))

/-- Gradient of micro-batch `k`'s mean loss, given the per-position loss
gradients `g` (differentiation is linear, so the gradient of the mean is
the mean of the per-position gradients). -/
def microGrad {P : Type} (K N : ℕ) (g : Fin K → Fin N → P → ℚ) (k : Fin K) :
    P → ℚ :=
  fun p => (∑ j, g k j p) / (N : ℚ)

/-- The gradient accumulator after the micro-step loop: `zero_grad` sets
it to zero (line 544); each micro-step's `loss.backward()` on the loss
scaled by `1/grad_accum_steps` (line 564) adds `microGrad k / K` into it
— never overwrites. -/
def gradAccumLoop {P : Type} (K N : ℕ) (g : Fin K → Fin N → P → ℚ) :
    P → ℚ :=
  (List.finRange K).foldl
    (fun acc k => fun p => acc p + microGrad K N g k p / (K : ℚ))
    (fun _ => 0)

/-- Gradient of the concatenated batch's mean loss over all `K*N`
positions. -/
def concatGrad {P : Type} (K N : ℕ) (g : Fin K → Fin N → P → ℚ) : P → ℚ :=
  fun p => (∑ k, ∑ j, g k j p) / ((K : ℚ) * (N : ℚ))

/-- Multi-worker gradient after synchronization at the last micro-step
only (lines 557–558): every worker accumulates its `K` micro-gradients
locally with sync suppressed, and the single sync averages the
accumulated gradients across the `W` workers. -/
def syncAtEndGrad {P : Type} (W K N : ℕ)
    (g : Fin W → Fin K → Fin N → P → ℚ) : P → ℚ :=
  fun p => (∑ w, gradAccumLoop K N (g w) p) / (W : ℚ)

/-- Multi-worker gradient were synchronization run at every micro-step:
each micro-step adds the cross-worker average of that micro-step's scaled
gradients. -/
def syncEveryStepGrad {P : Type} (W K N : ℕ)
    (g : Fin W → Fin K → Fin N → P → ℚ) : P → ℚ :=
  (List.finRange K).foldl
    (fun acc k => fun p => acc p + (∑ w, microGrad K N (g w) k p / (K : ℚ)) / (W : ℚ))
    (fun _ => 0)

/-- Gradient of the global mean loss of the full batch of all `W*K*N`
positions. -/
def globalConcatGrad {P : Type} (W K N : ℕ)
    (g : Fin W → Fin K → Fin N → P → ℚ) : P → ℚ :=
  fun p => (∑ w, ∑ k, ∑ j, g w k j p) / ((W : ℚ) * ((K : ℚ) * (N : ℚ)))

/-! ## Theorems: learning-rate scheduler -/

/-- In the warmup regime the scheduler is the linear ramp. -/
lemma get_lr_warmup_form (it : ℕ) (h : it < warmup_steps) :
    get_lr ℝ Real.pi Real.cos it = (max_lr : ℝ) * ((it : ℝ) + 1) / 715 := by
  unfold get_lr
  rw [if_pos h]
  norm_num [warmup_steps]

/-- In the cosine-decay regime the scheduler takes the closed decay
form. -/
lemma get_lr_decay_form (it : ℕ) (h1 : warmup_steps ≤ it) (h2 : it ≤ max_steps) :
    get_lr ℝ Real.pi Real.cos it =
      (min_lr : ℝ) + (1 / 2) * (1 + Real.cos (Real.pi * (((it : ℝ) - 715) / 18358)))
        * ((max_lr : ℝ) - (min_lr : ℝ)) := by
  unfold get_lr
  rw [if_neg (not_lt.2 h1), if_neg (not_lt.2 h2)]
  norm_num [warmup_steps, max_steps]

/-- The cast constants of the schedule. -/
lemma max_lr_real : (max_lr : ℝ) = 6 / 10000 := by norm_num [max_lr]

lemma min_lr_real : (min_lr : ℝ) = 6 / 100000 := by norm_num [min_lr, max_lr]

/-- C4: the learning-rate scheduler is the pure function of the step
given by the specification's formula — linear ramp
`max_lr*(step+1)/warmup_steps` for `step < warmup_steps`, constant
`min_lr` for `step > max_steps`, and otherwise
`min_lr + 0.5*(1+cos(pi*(step-warmup_steps)/(max_steps-warmup_steps)))*(max_lr-min_lr)`
— with `min_lr = 0.1*max_lr`, over every scalar field and every choice of
the `pi`/`cos` primitives. -/
theorem get_lr_is_spec_formula (K : Type) [LinearOrderedField K]
    (pi : K) (cos : K → K) (it : ℕ) :
    get_lr K pi cos it = get_lr_specFormula K pi cos it ∧
      min_lr = (1 / 10) * max_lr := by
  refine ⟨?_, by norm_num [min_lr, max_lr]⟩
  unfold get_lr get_lr_specFormula
  by_cases h1 : it < warmup_steps
  · simp [h1]
  · by_cases h2 : max_steps < it
    · simp [h1, h2]
    · simp only [h1, h2, if_false]
      rw [mul_div_assoc]

/-- C5 counterexample: at step `warmup_steps - 1` the scheduler already
equals `max_lr` exactly, so it is not strictly below `max_lr` as the
claim states. -/
theorem lr_last_warmup_not_below_max :
    ¬ (get_lr ℝ Real.pi Real.cos (warmup_steps - 1) < (max_lr : ℝ)) := by
  have h : get_lr ℝ Real.pi Real.cos (warmup_steps - 1) = (max_lr : ℝ) := by
    rw [get_lr_warmup_form _ (by norm_num [warmup_steps])]
    norm_num [warmup_steps, max_lr_real]
  rw [h]
  exact lt_irrefl _

/-- C5 (amended): `lr(warmup_steps-1)` equals `max_lr` exactly (the ramp
is strictly below `max_lr` only before that step); `lr(warmup_steps)`,
the start of cosine decay, also equals `max_lr` (continuity at the
warmup boundary); `lr(max_steps) = min_lr = lr(max_steps+1)` (continuity
at the decay boundary); and `lr` is nondecreasing on the warmup regime
and nonincreasing on the cosine-decay regime. -/
theorem get_lr_boundary_monotone :
    get_lr ℝ Real.pi Real.cos (warmup_steps - 1) = (max_lr : ℝ) ∧
    (∀ s : ℕ, s < warmup_steps - 1 →
      get_lr ℝ Real.pi Real.cos s < (max_lr : ℝ)) ∧
    get_lr ℝ Real.pi Real.cos warmup_steps = (max_lr : ℝ) ∧
    get_lr ℝ Real.pi Real.cos max_steps = (min_lr : ℝ) ∧
    get_lr ℝ Real.pi Real.cos (max_steps + 1) = (min_lr : ℝ) ∧
    (∀ s t : ℕ, s ≤ t → t < warmup_steps →
      get_lr ℝ Real.pi Real.cos s ≤ get_lr ℝ Real.pi Real.cos t) ∧
    (∀ s t : ℕ, warmup_steps ≤ s → s ≤ t → t ≤ max_steps →
      get_lr ℝ Real.pi Real.cos t ≤ get_lr ℝ Real.pi Real.cos s) := by
  refine ⟨?_, ?_, ?_, ?_, ?_, ?_, ?_⟩
  · rw [get_lr_warmup_form _ (by norm_num [warmup_steps])]
    norm_num [warmup_steps, max_lr_real]
  · intro s hs
    rw [get_lr_warmup_form _ (by omega)]
    have hcast : (s : ℝ) + 1 < 715 := by
      have : (s : ℝ) < 714 := by
        exact_mod_cast (by simpa [warmup_steps] using hs : s < 714)
      linarith
    rw [max_lr_real]
    rw [div_lt_iff₀ (by norm_num)]
    nlinarith
  · rw [get_lr_decay_form _ (le_refl _) (by norm_num [warmup_steps, max_steps])]
    norm_num [warmup_steps]
  · rw [get_lr_decay_form _ (by norm_num [warmup_steps, max_steps]) (le_refl _)]
    norm_num [max_steps]
  · unfold get_lr
    rw [if_neg (by norm_num [warmup_steps, max_steps]), if_pos (by omega)]
  · intro s t hst ht
    rw [get_lr_warmup_form _ (lt_of_le_of_lt hst ht), get_lr_warmup_form _ ht]
    have hc : (s : ℝ) ≤ (t : ℝ) := by exact_mod_cast hst
    rw [max_lr_real]
    gcongr
  · intro s t hws hst htm
    rw [get_lr_decay_form _ hws (le_trans hst htm),
        get_lr_decay_form _ (le_trans hws hst) htm]
    have hs715 : (715 : ℝ) ≤ (s : ℝ) := by
      exact_mod_cast (by simpa [warmup_steps] using hws : 715 ≤ s)
    have hst' : (s : ℝ) ≤ (t : ℝ) := by exact_mod_cast hst
    have htm' : (t : ℝ) ≤ 19073 := by
      exact_mod_cast (by simpa [max_steps] using htm : t ≤ 19073)
    have hcos : Real.cos (Real.pi * (((t : ℝ) - 715) / 18358)) ≤
        Real.cos (Real.pi * (((s : ℝ) - 715) / 18358)) := by
      apply Real.cos_le_cos_of_nonneg_of_le_pi
      · exact mul_nonneg Real.pi_pos.le (div_nonneg (by linarith) (by norm_num))
      · have hr1 : ((t : ℝ) - 715) / 18358 ≤ 1 := by
          rw [div_le_one (by norm_num)]; linarith
        nlinarith [Real.pi_pos]
      · exact mul_le_mul_of_nonneg_left
          ((div_le_div_iff_of_pos_right (by norm_num)).2 (by linarith)) Real.pi_pos.le
    have hspan : (0 : ℝ) ≤ (max_lr : ℝ) - (min_lr : ℝ) := by
      rw [max_lr_real, min_lr_real]; norm_num
    nlinarith [hcos, hspan]

/-! ## Theorems: gradient clipping -/

/-- C6: clipping computes the global L2 norm of all gradients and returns
it for logging; when the norm is at most `1.0` (including a norm of
exactly zero) the gradients are unchanged and no division occurs; when it
exceeds `1.0` the uniform rescale makes the global norm equal `1.0`
exactly; and after clipping the global norm is always at most `1.0`.
The abstract `sqrt` is constrained to behave as the square root of the
norm-squared actually computed. -/
theorem clip_grad_norm_spec (n : ℕ) (sqrt : ℚ → ℚ) (g : Fin n → ℚ)
    (hnn : 0 ≤ sqrt (gradNormSq n g))
    (hsq : sqrt (gradNormSq n g) ^ 2 = gradNormSq n g) :
    (clipGradNorm n sqrt g).2 = sqrt (gradNormSq n g) ∧
    (sqrt (gradNormSq n g) ≤ 1 → (clipGradNorm n sqrt g).1 = g) ∧
    (1 < sqrt (gradNormSq n g) →
      gradNormSq n (clipGradNorm n sqrt g).1 = 1) ∧
    gradNormSq n (clipGradNorm n sqrt g).1 ≤ 1 := by
  have hscaled : 1 < sqrt (gradNormSq n g) →
      gradNormSq n (fun i => g i / sqrt (gradNormSq n g)) = 1 := by
    intro hlt
    have hne : sqrt (gradNormSq n g) ≠ 0 := by linarith
    have hdiv : gradNormSq n (fun i => g i / sqrt (gradNormSq n g)) =
        gradNormSq n g / sqrt (gradNormSq n g) ^ 2 := by
      unfold gradNormSq
      calc (∑ i, (fun i => g i / sqrt (gradNormSq n g)) i ^ 2)
          = ∑ i, g i ^ 2 / sqrt (gradNormSq n g) ^ 2 :=
            Finset.sum_congr rfl (fun i _ => div_pow (g i) _ 2)
        _ = (∑ i, g i ^ 2) / sqrt (gradNormSq n g) ^ 2 := by
            rw [← Finset.sum_div]
    rw [hdiv, div_eq_one_iff_eq (pow_ne_zero 2 hne)]
    exact hsq.symm
  refine ⟨?_, ?_, ?_, ?_⟩
  · unfold clipGradNorm
    split <;> rfl
  · intro hle
    unfold clipGradNorm
    rw [if_neg (not_lt.2 hle)]
  · intro hlt
    unfold clipGradNorm
    rw [if_pos hlt]
    exact hscaled hlt
  · unfold clipGradNorm
    split
    · rename_i hlt
      exact le_of_eq (hscaled hlt)
    · rename_i hle
      have h1 : sqrt (gradNormSq n g) ≤ 1 := not_lt.1 hle
      calc gradNormSq n g = sqrt (gradNormSq n g) ^ 2 := hsq.symm
        _ ≤ 1 := by nlinarith

/-- Witness for `clip_grad_norm_spec`: the gradient vector `(3, 4)` has
squared norm `25`; with a square-root primitive answering `5` there, the
hypotheses hold and clipping rescales to norm exactly `1`. -/
theorem clip_grad_norm_spec_witness :
    (0 : ℚ) ≤ (fun _ : ℚ => (5 : ℚ)) (gradNormSq 2 ![3, 4]) ∧
    ((fun _ : ℚ => (5 : ℚ)) (gradNormSq 2 ![3, 4])) ^ 2 = gradNormSq 2 ![3, 4] ∧
    gradNormSq 2 (clipGradNorm 2 (fun _ => 5) ![3, 4]).1 = 1 :=
  ⟨by norm_num [gradNormSq, Fin.sum_univ_two],
   by norm_num [gradNormSq, Fin.sum_univ_two],
   ((clip_grad_norm_spec 2 (fun _ => 5) ![3, 4]
      (by norm_num [gradNormSq, Fin.sum_univ_two])
      (by norm_num [gradNormSq, Fin.sum_univ_two])).2.2.1
     (by norm_num [gradNormSq, Fin.sum_univ_two]))⟩

/-! ## Theorems: optimizer configuration -/

/-- C9: `configure_optimizers` produces exactly two parameter groups: the
first holds precisely the trainable parameters with at least two
dimensions and receives the given weight decay, the second precisely the
trainable parameters with fewer than two dimensions and receives weight
decay `0.0`; together they cover every trainable parameter and are
disjoint; and the update rule is built over both groups jointly with
`betas = (0.9, 0.95)` and `eps = 1e-8` at the requested learning rate. -/
theorem configure_optimizers_spec (params : List PDesc) (wd lr : ℚ) :
    ∃ decay nodecay : List PDesc,
      (configure_optimizers params wd lr).groups =
        [⟨decay, wd⟩, ⟨nodecay, 0⟩] ∧
      (∀ p, p ∈ decay ↔ p ∈ params ∧ p.requiresGrad = true ∧ 2 ≤ p.ndim) ∧
      (∀ p, p ∈ nodecay ↔ p ∈ params ∧ p.requiresGrad = true ∧ p.ndim < 2) ∧
      (∀ p, p ∈ params → p.requiresGrad = true → (p ∈ decay ∨ p ∈ nodecay)) ∧
      (∀ p, ¬ (p ∈ decay ∧ p ∈ nodecay)) ∧
      (configure_optimizers params wd lr).beta1 = 9 / 10 ∧
      (configure_optimizers params wd lr).beta2 = 95 / 100 ∧
      (configure_optimizers params wd lr).eps = 1 / 100000000 ∧
      (configure_optimizers params wd lr).lr = lr := by
  unfold configure_optimizers
  refine ⟨_, _, rfl, ?_, ?_, ?_, ?_, rfl, rfl, rfl, rfl⟩
  · intro p
    simp only [List.mem_filter, decide_eq_true_eq]
    tauto
  · intro p
    simp only [List.mem_filter, decide_eq_true_eq]
    tauto
  · intro p hp hg
    by_cases h2 : 2 ≤ p.ndim
    · exact Or.inl (by simp [List.mem_filter, hp, hg, h2])
    · exact Or.inr (by simp [List.mem_filter, hp, hg]; omega)
  · rintro p ⟨h1, h2⟩
    simp only [List.mem_filter, decide_eq_true_eq] at h1 h2
    omega

/-- Witness for `configure_optimizers_spec`: on the two-parameter list
`[(ndim 2, grad), (ndim 1, grad)]` the 2-dimensional tensor lands in the
weight-decayed group and the 1-dimensional one in the zero-decay
group. -/
theorem configure_optimizers_spec_witness :
    ∃ decay nodecay : List PDesc,
      (configure_optimizers [⟨2, true⟩, ⟨1, true⟩] (1 / 10) (6 / 10000)).groups =
        [⟨decay, 1 / 10⟩, ⟨nodecay, 0⟩] ∧
      (⟨2, true⟩ : PDesc) ∈ decay ∧ (⟨1, true⟩ : PDesc) ∈ nodecay := by
  obtain ⟨d, nd, hg, hd, hnd, -, -, -, -, -, -⟩ :=
    configure_optimizers_spec [⟨2, true⟩, ⟨1, true⟩] (1 / 10) (6 / 10000)
  exact ⟨d, nd, hg,
    (hd _).2 ⟨by decide, by decide, by decide⟩,
    (hnd _).2 ⟨by decide, by decide, by decide⟩⟩

/-! ## Theorems: initialization policy -/

/-- C8: for every parameter-bearing module the constructor registers,
the initializer draws a Linear weight from a zero-mean Gaussian with
standard deviation `0.02` — except the final output projections of the
Attention block and the Feed-Forward block, which receive
`0.02 * (2*n_layer) ** -0.5` — writes exactly zero into every Linear
bias, and draws every embedding table with standard deviation `0.02`. -/
theorem init_policy_spec (c : GPTConfig) (rsqrt : ℕ → ℚ) :
    ∀ s ∈ gptModules c,
      (∀ sc hb, moduleKind s = .linear sc hb →
        initWeightStd rsqrt c.n_layer s =
          some (if isResidualProj s then (2 / 100) * rsqrt (2 * c.n_layer)
                else 2 / 100)) ∧
      (∀ sc, moduleKind s = .linear sc true → initBiasValue s = some 0) ∧
      (moduleKind s = .embedding →
        initWeightStd rsqrt c.n_layer s = some (2 / 100)) := by
  intro s _
  refine ⟨?_, ?_, ?_⟩ <;>
    cases s <;>
    simp [moduleKind, initWeightStd, initBiasValue, isResidualProj]

/-- Witness for `init_policy_spec`: in a 2-layer toy configuration the
attention output projection of layer 0 (a registered module) is a Linear
with the scale marker; the policy gives its weight the scaled standard
deviation and its bias exactly zero. -/
theorem init_policy_spec_witness :
    initWeightStd (fun _ => 3) 2 (Site.attn_c_proj 0) =
      some ((2 / 100) * 3) ∧
    initBiasValue (Site.attn_c_proj 0) = some 0 := by
  have h := init_policy_spec ⟨4, 8, 2, 2, 8⟩ (fun _ => 3)
    (Site.attn_c_proj 0) (by decide)
  refine ⟨?_, h.2.1 true rfl⟩
  have hw := h.1 true true rfl
  simpa [isResidualProj] using hw

/-! ## Theorems: weight tying -/

/-- C3: after construction the token-embedding weight name and the
`lm_head` weight name refer to the same storage id; consequently a write
through either name is observable through the other, and any whole-model
parameter operation (initialization pass, optimizer step — all of which
rewrite storages but never rebind names) preserves the aliasing: both
names always read the same values. -/
theorem weight_tying_invariant (c : GPTConfig) :
    (constructGPTRefs c).wteW = (constructGPTRefs c).lmHeadW ∧
    (∀ (h : Heap) (v : ℕ → ℕ → ℚ),
      writeHeap h (constructGPTRefs c).wteW v (constructGPTRefs c).lmHeadW = v ∧
      writeHeap h (constructGPTRefs c).lmHeadW v (constructGPTRefs c).wteW = v) ∧
    (∀ (f : ℕ → (ℕ → ℕ → ℚ) → (ℕ → ℕ → ℚ)) (h : Heap),
      applyOp f h (constructGPTRefs c).wteW =
        applyOp f h (constructGPTRefs c).lmHeadW) := by
  refine ⟨rfl, ?_, ?_⟩
  · intro h v
    constructor <;> simp [writeHeap, constructGPTRefs]
  · intro f h
    rfl

/-! ## Theorems: gradient accumulation -/

/-- Folding `acc + g k` over a list is the initial value plus the sum. -/
lemma foldl_add_eq_sum {α : Type} (g : α → ℚ) :
    ∀ (l : List α) (a : ℚ),
      l.foldl (fun acc k => acc + g k) a = a + (l.map g).sum := by
  intro l
  induction l with
  | nil => intro a; simp
  | cons x xs ih => intro a; simp [ih, add_assoc]

/-- Function-valued variant of `foldl_add_eq_sum`, read at one point. -/
lemma foldl_fun_add_eq_sum {α P : Type} (G : α → P → ℚ) (p : P) :
    ∀ (l : List α) (a : P → ℚ),
      (l.foldl (fun acc k => fun q => acc q + G k q) a) p =
        a p + (l.map (fun k => G k p)).sum := by
  intro l
  induction l with
  | nil => intro a; simp
  | cons x xs ih => intro a; simp [ih, add_assoc]

/-- C2: the micro-step loop — each micro-batch loss scaled by
`1/grad_accum_steps`, the backward pass adding into the gradient
accumulator, cross-worker synchronization enabled only on the last
micro-step — accumulates exactly the mean loss of the single concatenated
batch and exactly the gradient of that mean loss; with `W` workers, the
one synchronization at the end produces exactly the gradient of the
global full-batch mean, the same value synchronizing at every micro-step
would have produced (exact arithmetic). -/
theorem grad_accum_equivalence {P : Type} (K N W : ℕ)
    (l : Fin K → Fin N → ℚ) (g : Fin K → Fin N → P → ℚ)
    (gw : Fin W → Fin K → Fin N → P → ℚ) :
    lossAccumLoop K N l = concatMeanLoss K N l ∧
    gradAccumLoop K N g = concatGrad K N g ∧
    syncAtEndGrad W K N gw = globalConcatGrad W K N gw ∧
    syncAtEndGrad W K N gw = syncEveryStepGrad W K N gw := by
  have hloss : ∀ (l' : Fin K → Fin N → ℚ),
      lossAccumLoop K N l' = concatMeanLoss K N l' := by
    intro l'
    unfold lossAccumLoop concatMeanLoss
    rw [foldl_add_eq_sum, ← Fin.sum_univ_def]
    rw [zero_add]
    unfold microLoss
    rw [Finset.sum_div]
    exact Finset.sum_congr rfl (fun k _ => by
      rw [div_div, mul_comm (N : ℚ) (K : ℚ)])
  have hgrad : ∀ (g' : Fin K → Fin N → P → ℚ),
      gradAccumLoop K N g' = concatGrad K N g' := by
    intro g'
    funext p
    unfold gradAccumLoop concatGrad
    rw [foldl_fun_add_eq_sum, ← Fin.sum_univ_def]
    simp only [zero_add]
    unfold microGrad
    rw [Finset.sum_div]
    exact Finset.sum_congr rfl (fun k _ => by
      rw [div_div, mul_comm (N : ℚ) (K : ℚ)])
  have hsync : syncAtEndGrad W K N gw = globalConcatGrad W K N gw := by
    funext p
    unfold syncAtEndGrad globalConcatGrad
    have h1 : ∀ w : Fin W, gradAccumLoop K N (gw w) p =
        (∑ k, ∑ j, gw w k j p) / ((K : ℚ) * (N : ℚ)) := fun w => by
      rw [hgrad (gw w)]; rfl
    simp only [h1]
    rw [← Finset.sum_div, div_div, mul_comm ((K : ℚ) * (N : ℚ)) (W : ℚ)]
  have hsync2 : syncEveryStepGrad W K N gw = globalConcatGrad W K N gw := by
    funext p
    unfold syncEveryStepGrad globalConcatGrad
    rw [foldl_fun_add_eq_sum, ← Fin.sum_univ_def]
    simp only [zero_add, microGrad]
    have step : ∀ k : Fin K,
        (∑ w, (∑ j, gw w k j p) / (N : ℚ) / (K : ℚ)) / (W : ℚ) =
          (∑ w, ∑ j, gw w k j p) / ((W : ℚ) * ((K : ℚ) * (N : ℚ))) := by
      intro k
      simp only [div_div]
      rw [← Finset.sum_div, div_div]
      congr 1
      ring
    calc (∑ k, (∑ w, (∑ j, gw w k j p) / (N : ℚ) / (K : ℚ)) / (W : ℚ))
        = ∑ k, (∑ w, ∑ j, gw w k j p) / ((W : ℚ) * ((K : ℚ) * (N : ℚ))) :=
          Finset.sum_congr rfl (fun k _ => step k)
      _ = (∑ k, ∑ w, ∑ j, gw w k j p) / ((W : ℚ) * ((K : ℚ) * (N : ℚ))) := by
          rw [← Finset.sum_div]
      _ = (∑ w, ∑ k, ∑ j, gw w k j p) / ((W : ℚ) * ((K : ℚ) * (N : ℚ))) := by
          rw [Finset.sum_comm]
  exact ⟨hloss l, hgrad g, hsync, hsync.trans hsync2.symm⟩

/-! ## Theorems: forward contract -/

/-- Row-major flattening `(B, T) ≃ B*T` underlying `view(-1)`. -/
def flatEquiv (B T : ℕ) : Fin (B * T) ≃ Fin B × Fin T where
  toFun n := (rowOf B T n, colOf B T n)
  invFun bt := ⟨bt.1.1 * T + bt.2.1, by
    have hb := bt.1.isLt
    have ht := bt.2.isLt
    calc bt.1.1 * T + bt.2.1 < bt.1.1 * T + T := by omega
      _ = (bt.1.1 + 1) * T := by ring
      _ ≤ B * T := Nat.mul_le_mul_right T hb⟩
  left_inv n := by
    apply Fin.ext
    simp only [rowOf, colOf]
    exact Nat.div_add_mod' n.1 T
  right_inv bt := by
    have ht := bt.2.isLt
    have hT : 0 < T := Nat.lt_of_le_of_lt (Nat.zero_le _) ht
    apply Prod.ext
    · apply Fin.ext
      simp only [rowOf, colOf]
      rw [Nat.mul_comm (bt.1.1) T, Nat.mul_add_div hT, Nat.div_eq_of_lt ht,
        Nat.add_zero]
    · apply Fin.ext
      simp only [rowOf, colOf]
      rw [Nat.mul_comm (bt.1.1) T, Nat.mul_add_mod, Nat.mod_eq_of_lt ht]

/-- A sum over the flattened index set is the double sum over rows and
columns. -/
lemma sum_flatten (B T : ℕ) (F : Fin B → Fin T → ℚ) :
    (∑ n : Fin (B * T), F (rowOf B T n) (colOf B T n)) = ∑ b, ∑ t, F b t := by
  have h1 : (∑ n : Fin (B * T), F (rowOf B T n) (colOf B T n)) =
      ∑ bt : Fin B × Fin T, F bt.1 bt.2 :=
    Fintype.sum_equiv (flatEquiv B T) _ _ (fun n => rfl)
  rw [h1, Fintype.sum_prod_type]

/-- C7: for every integer input matrix of shape `(B, T)` with targets
supplied, the forward pass returns, when `T ≤ block_size`, logits of
shape `(B, T, vocab_size)` paired with the mean token-level cross-entropy
over all `B*T` positions (logits at position `t` against the target at
position `t`); when `T > block_size` it fails immediately with a fatal
error and never truncates. -/
theorem forward_contract (c : GPTConfig) (pr : Prims) (p : GPTP c)
    (B T : ℕ) (idx tg : Fin B → Fin T → Fin c.vocab_size) :
    gptForward c pr p B T idx (some tg) =
      if hT : T ≤ c.block_size then
        .ok (gptBody c pr p B T hT idx,
             some (meanTokenCE c pr (gptBody c pr p B T hT idx) tg))
      else .error "Cannot foward sequence, longer than block size" := by
  unfold gptForward
  by_cases hT : T ≤ c.block_size
  · rw [dif_pos hT, dif_pos hT]
    simp only [Option.map_some']
    unfold meanTokenCE
    rw [sum_flatten B T
      (fun b t => ceF pr (gptBody c pr p B T hT idx b t) (tg b t))]
  · rw [dif_neg hT, dif_neg hT]

/-- C10: for every valid input with `T ≤ block_size`, calling the forward
pass without targets succeeds and returns the logits paired with a `None`
loss; in general the returned loss is `Some` exactly when targets are
supplied. -/
theorem forward_no_targets_no_loss (c : GPTConfig) (pr : Prims)
    (p : GPTP c) (B T : ℕ) (idx : Fin B → Fin T → Fin c.vocab_size)
    (tgo : Option (Fin B → Fin T → Fin c.vocab_size))
    (hT : T ≤ c.block_size) :
    gptForward c pr p B T idx none = .ok (gptBody c pr p B T hT idx, none) ∧
    ∃ loss : Option ℚ,
      gptForward c pr p B T idx tgo = .ok (gptBody c pr p B T hT idx, loss) ∧
      loss.isSome = tgo.isSome := by
  constructor
  · unfold gptForward
    rw [dif_pos hT]
    rfl
  · refine ⟨tgo.map (fun tg =>
      (∑ n : Fin (B * T),
        ceF pr (gptBody c pr p B T hT idx (rowOf B T n) (colOf B T n))
          (tg (rowOf B T n) (colOf B T n))) / ((B * T : ℕ) : ℚ)), ?_, ?_⟩
    · unfold gptForward
      rw [dif_pos hT]
    · cases tgo <;> rfl

/-! ## Theorems: strict causality of the forward pass -/

/-- Two single-row activation tensors agree at every position `≤ i`. -/
def AgreeLe {T C : ℕ} (i : Fin T) (x y : Fin T → Fin C → ℚ) : Prop :=
  ∀ t : Fin T, t ≤ i → x t = y t

/-- The attention score at `(i, j)` depends only on the rows `x i` and
`x j`. -/
lemma attScore_congr {T C : ℕ} (nh : ℕ) (pr : Prims) (p : AttnP C)
    {x y : Fin T → Fin C → ℚ} {i j : Fin T}
    (hi : x i = y i) (hj : x j = y j) (h' : ℕ) :
    attScore nh pr p x i j h' = attScore nh pr p y i j h' := by
  unfold attScore
  rw [hi, hj]

/-- Masked weights vanish: position `i` never weights a position
`j > i`. -/
lemma attWeight_of_not_le {T C : ℕ} (nh : ℕ) (pr : Prims) (p : AttnP C)
    (x : Fin T → Fin C → ℚ) {i j : Fin T} (hj : ¬ j ≤ i) (h' : ℕ) :
    attWeight nh pr p x i j h' = 0 := by
  unfold attWeight
  rw [if_neg hj]

/-- The softmax normalizer at query position `t` depends only on the
rows at positions `≤ t`. -/
lemma attDenom_congr {T C : ℕ} (nh : ℕ) (pr : Prims) (p : AttnP C)
    {x y : Fin T → Fin C → ℚ} {t : Fin T}
    (hk : ∀ j : Fin T, j ≤ t → x j = y j) (h' : ℕ) :
    attDenom nh pr p x t h' = attDenom nh pr p y t h' := by
  unfold attDenom
  refine Finset.sum_congr rfl (fun j _ => ?_)
  by_cases hj : j ≤ t
  · unfold attWeight
    rw [if_pos hj, if_pos hj,
      attScore_congr nh pr p (hk t le_rfl) (hk j hj) h']
  · rw [attWeight_of_not_le nh pr p x hj h', attWeight_of_not_le nh pr p y hj h']

/-- The attention output row at query position `t` depends only on the
input rows at positions `≤ t`: later rows enter only through weights the
causal mask zeroes. -/
lemma attnF_congr_le {T C : ℕ} (nh : ℕ) (pr : Prims) (p : AttnP C)
    {x y : Fin T → Fin C → ℚ} {t : Fin T}
    (hk : ∀ j : Fin T, j ≤ t → x j = y j) :
    attnF nh pr p x t = attnF nh pr p y t := by
  unfold attnF
  apply congrArg
  funext c
  refine Finset.sum_congr rfl (fun j _ => ?_)
  by_cases hj : j ≤ t
  · unfold attWeight
    rw [if_pos hj, if_pos hj,
      attScore_congr nh pr p (hk t le_rfl) (hk j hj) (c.1 / (C / nh)),
      attDenom_congr nh pr p hk (c.1 / (C / nh)), hk j hj]
  · rw [attWeight_of_not_le nh pr p x hj (c.1 / (C / nh)),
      attWeight_of_not_le nh pr p y hj (c.1 / (C / nh))]
    simp only [zero_div, zero_mul]

/-- `blockF` unfolded at one position and channel. -/
lemma blockF_apply {T C : ℕ} (nh : ℕ) (pr : Prims) (bp : BlockP C)
    (x : Fin T → Fin C → ℚ) (t : Fin T) (c : Fin C) :
    blockF nh pr bp x t c =
      (x t c + attnF nh pr bp.attn (fun s => layerNormF pr bp.ln_1 (x s)) t c) +
      mlpF pr bp.mlp (layerNormF pr bp.ln_2
        (fun d => x t d + attnF nh pr bp.attn (fun s => layerNormF pr bp.ln_1 (x s)) t d)) c :=
  rfl

/-- One transformer block preserves agreement at positions `≤ i`. -/
lemma blockF_agreeLe {T C : ℕ} (nh : ℕ) (pr : Prims) (bp : BlockP C)
    {i : Fin T} {x y : Fin T → Fin C → ℚ} (h : AgreeLe i x y) :
    AgreeLe i (blockF nh pr bp x) (blockF nh pr bp y) := by
  intro t ht
  have hln1 : ∀ s : Fin T, s ≤ i →
      layerNormF pr bp.ln_1 (x s) = layerNormF pr bp.ln_1 (y s) :=
    fun s hs => congrArg _ (h s hs)
  have hattn : attnF nh pr bp.attn (fun u => layerNormF pr bp.ln_1 (x u)) t =
      attnF nh pr bp.attn (fun u => layerNormF pr bp.ln_1 (y u)) t :=
    attnF_congr_le nh pr bp.attn (fun j hj => hln1 j (le_trans hj ht))
  have hx1 : (fun d => x t d +
        attnF nh pr bp.attn (fun s => layerNormF pr bp.ln_1 (x s)) t d) =
      (fun d => y t d +
        attnF nh pr bp.attn (fun s => layerNormF pr bp.ln_1 (y s)) t d) := by
    funext d
    rw [congrFun (h t ht) d, congrFun hattn d]
  funext c
  rw [blockF_apply, blockF_apply, congrFun (h t ht) c, congrFun hattn c, hx1]

/-- The whole block stack preserves agreement at positions `≤ i`. -/
lemma foldl_blocks_agreeLe {T C : ℕ} (nh : ℕ) (pr : Prims) {α : Type}
    (bps : α → BlockP C) {i : Fin T} :
    ∀ (l : List α) {x y : Fin T → Fin C → ℚ}, AgreeLe i x y →
      AgreeLe i (l.foldl (fun acc a => blockF nh pr (bps a) acc) x)
                (l.foldl (fun acc a => blockF nh pr (bps a) acc) y) := by
  intro l
  induction l with
  | nil => intro x y h; exact h
  | cons a as ih =>
      intro x y h
      exact ih (blockF_agreeLe nh pr (bps a) h)

/-- `gptBody` unfolded at one batch row, position and vocabulary
index. -/
lemma gptBody_apply (c : GPTConfig) (pr : Prims) (p : GPTP c) (B T : ℕ)
    (hT : T ≤ c.block_size) (idx : Fin B → Fin T → Fin c.vocab_size)
    (b : Fin B) (t : Fin T) (v : Fin c.vocab_size) :
    gptBody c pr p B T hT idx b t v =
      ∑ e, p.wte v e * layerNormF pr p.ln_f
        (((List.finRange c.n_layer).foldl
          (fun x l => blockF c.n_head pr (p.h l) x)
          (fun s e => p.wte (idx b s) e +
            p.wpe ⟨s.1, lt_of_lt_of_le s.isLt hT⟩ e)) t) e :=
  rfl

/-- C1: strict causality of the model forward pass — for every
configuration, every parameter assignment, every primitive functions, and
every pair of token-id input matrices that agree at all positions `≤ i`
in every row, the logits at position `i` are identical: tokens at
positions `> i` never influence the logits at position `i`. -/
theorem causal_masking_strict (c : GPTConfig) (pr : Prims) (p : GPTP c)
    (B T : ℕ) (hT : T ≤ c.block_size)
    (idx1 idx2 : Fin B → Fin T → Fin c.vocab_size) (i : Fin T)
    (hagree : ∀ (b : Fin B) (t : Fin T), t ≤ i → idx1 b t = idx2 b t) :
    ∀ (b : Fin B) (v : Fin c.vocab_size),
      gptBody c pr p B T hT idx1 b i v = gptBody c pr p B T hT idx2 b i v := by
  intro b v
  have h0 : AgreeLe i
      (fun s e => p.wte (idx1 b s) e + p.wpe ⟨s.1, lt_of_lt_of_le s.isLt hT⟩ e)
      (fun s e => p.wte (idx2 b s) e + p.wpe ⟨s.1, lt_of_lt_of_le s.isLt hT⟩ e) := by
    intro t ht
    funext e
    simp only [hagree b t ht]
  have hL := foldl_blocks_agreeLe c.n_head pr (fun l => p.h l)
    (List.finRange c.n_layer) h0 i le_rfl
  rw [gptBody_apply, gptBody_apply, hL]

/-! ## Concrete toy instantiation for witnesses -/

/-- Toy configuration: `block_size 2`, `vocab_size 2`, one layer, one
head, one embedding channel. -/
def tinyConfig : GPTConfig := ⟨2, 2, 1, 1, 1⟩

/-- Identity stand-ins for the transcendental primitives. -/
def tinyPrims : Prims := ⟨fun q => q, fun q => q, fun q => q, fun q => q⟩

/-- All-zero linear layer. -/
def tinyLinear (dout din : ℕ) : LinearP dout din := ⟨fun _ _ => 0, fun _ => 0⟩

/-- One toy transformer block. -/
def tinyBlock : BlockP 1 :=
  ⟨⟨fun _ => 1, fun _ => 0⟩, ⟨tinyLinear (3 * 1) 1, tinyLinear 1 1⟩,
   ⟨fun _ => 1, fun _ => 0⟩, ⟨tinyLinear (4 * 1) 1, tinyLinear 1 (4 * 1)⟩⟩

/-- Toy model parameters. -/
def tinyParams : GPTP tinyConfig :=
  ⟨fun _ _ => 0, fun _ _ => 0, fun _ => tinyBlock, ⟨fun _ => 1, fun _ => 0⟩⟩

/-- Witness for `causal_masking_strict`: two length-2 inputs that agree
at position 0 and differ at position 1 produce the same logits at
position 0. -/
theorem causal_masking_strict_witness :
    gptBody tinyConfig tinyPrims tinyParams 1 2 (by decide)
        (fun _ s => s) 0 0 ⟨0, by decide⟩ =
      gptBody tinyConfig tinyPrims tinyParams 1 2 (by decide)
        (fun _ _ => ⟨0, by decide⟩) 0 0 ⟨0, by decide⟩ :=
  causal_masking_strict tinyConfig tinyPrims tinyParams 1 2 (by decide)
    (fun _ s => s) (fun _ _ => ⟨0, by decide⟩) 0 (by decide) 0 ⟨0, by decide⟩

/-- Witness for `get_lr_boundary_monotone`: the ramp is nondecreasing
from step 100 to 200, the decay nonincreasing from step 1000 to 2000,
and step 3 is strictly below `max_lr`. -/
theorem get_lr_boundary_monotone_witness :
    get_lr ℝ Real.pi Real.cos 100 ≤ get_lr ℝ Real.pi Real.cos 200 ∧
    get_lr ℝ Real.pi Real.cos 2000 ≤ get_lr ℝ Real.pi Real.cos 1000 ∧
    get_lr ℝ Real.pi Real.cos 3 < (max_lr : ℝ) :=
  ⟨get_lr_boundary_monotone.2.2.2.2.2.1 100 200 (by norm_num)
      (by norm_num [warmup_steps]),
   get_lr_boundary_monotone.2.2.2.2.2.2 1000 2000
      (by norm_num [warmup_steps]) (by norm_num) (by norm_num [max_steps]),
   get_lr_boundary_monotone.2.1 3 (by norm_num [warmup_steps])⟩

/-- Witness for `forward_no_targets_no_loss`: on the toy model with a
length-2 input, the no-target call returns a `None` loss and the
with-target call a `Some` loss. -/
theorem forward_no_targets_no_loss_witness :
    gptForward tinyConfig tinyPrims tinyParams 1 2 (fun _ s => s) none =
      .ok (gptBody tinyConfig tinyPrims tinyParams 1 2 (by decide)
        (fun _ s => s), none) ∧
    ∃ loss : Option ℚ,
      gptForward tinyConfig tinyPrims tinyParams 1 2 (fun _ s => s)
          (some (fun _ s => s)) =
        .ok (gptBody tinyConfig tinyPrims tinyParams 1 2 (by decide)
          (fun _ s => s), loss) ∧
      loss.isSome =
        (some (fun _ s => s) : Option (Fin 1 → Fin 2 → Fin 2)).isSome :=
  forward_no_targets_no_loss tinyConfig tinyPrims tinyParams 1 2
    (fun _ s => s) (some (fun _ s => s)) (by decide)

end TrainGPT2
